import Mathlib

/-!
# Verification of the window_cycler core

A shallow embedding of the window-cycler core (`src/models/hotkey.py`,
`src/models/game_window.py`, `src/core/hotkey_manager.py`,
`src/core/window_cycler.py`) together with proofs about the behaviour the
specification claims.

Modelling conventions:
* Python strings are embedded as `List Char` (`PyStr`); the Python string
  methods `lower`, `strip`, `split('+')` and `'+'.join` are embedded by the
  executable functions `pyLower`, `pyStrip`, `pySplitOn` and `pyJoin`.
* Python `int` is embedded as `ℤ` (indices can be compared with `< 0` as the
  source does); counters that only ever grow from 0 are `ℕ`.
* `time.time()` values (seconds, compared against the `0.2` debounce
  interval) are embedded as `ℚ`.
* OS observations — `GameWindow.is_valid_handle()` and
  `WindowsAPI.activate_window` — are oracles `GameWindow → Bool` supplied as
  parameters; the optional capture libraries of `HotkeyManager` are
  availability/arming flags in an environment record.
* Code that would raise (`windows[i]` out of range, `ValueError` in
  `HotkeyConfig.parse`) returns `Option`/an `indexError` outcome; the one
  loop in `cycle_next` is run on an explicit fuel that provably dominates
  every terminating execution, the `divergent` outcome marking the inputs on
  which the Python loop would not terminate.
-/

/-- A Python string, embedded as its list of characters. -/
abbrev PyStr := List Char

/-- Python `str.lower()` (ASCII, which covers every string the program builds). -/
def pyLower (s : PyStr) : PyStr := s.map Char.toLower

/-- Python `str.upper()` (ASCII). -/
def pyUpper (s : PyStr) : PyStr := s.map Char.toUpper

/-- The characters Python `str.strip()` removes. -/
def pyIsSpace (c : Char) : Bool :=
  c = ' ' || c = '\t' || c = '\n' || c = '\r' || c = '\x0b' || c = '\x0c'

/-- Python `str.strip()`: drop whitespace from both ends. -/
def pyStrip (s : PyStr) : PyStr :=
  ((s.dropWhile pyIsSpace).reverse.dropWhile pyIsSpace).reverse

/-- Python `str.split(sep)` for a one-character separator: `''.split` gives
`['']`, separators are not collapsed. -/
def pySplitOn (sep : Char) : PyStr → List PyStr
  | [] => [[]]
  | c :: rest =>
    match pySplitOn sep rest with
    | [] => [[]]
    | p :: ps => if c = sep then [] :: p :: ps else (c :: p) :: ps

/-- Python `sep.join(parts)` for a one-character separator. -/
def pyJoin (sep : Char) : List PyStr → PyStr
  | [] => []
  | [p] => p
  | p :: q :: ps => p ++ sep :: pyJoin sep (q :: ps)

/-- Python list indexing `l[i]`, with negative indices counting from the end;
`none` models an `IndexError`. -/
def pyIndex {α : Type} (l : List α) (i : ℤ) : Option α :=
  if 0 ≤ i then l.get? i.toNat
  else if (-i).toNat ≤ l.length then l.get? (l.length - (-i).toNat)
  else none

theorem pySplitOn_ne_nil (sep : Char) : ∀ s : PyStr, pySplitOn sep s ≠ []
  | [] => by simp [pySplitOn]
  | c :: rest => by
    have h := pySplitOn_ne_nil sep rest
    cases hr : pySplitOn sep rest with
    | nil => exact absurd hr h
    | cons p ps =>
      simp only [pySplitOn, hr]
      split <;> simp

theorem pyJoin_pySplitOn (sep : Char) : ∀ s : PyStr, pyJoin sep (pySplitOn sep s) = s
  | [] => by simp [pySplitOn, pyJoin]
  | c :: rest => by
    have ih := pyJoin_pySplitOn sep rest
    cases hr : pySplitOn sep rest with
    | nil => exact absurd hr (pySplitOn_ne_nil sep rest)
    | cons p ps =>
      rw [hr] at ih
      simp only [pySplitOn, hr]
      split
      · next hc =>
        subst hc
        cases ps <;> simp_all [pyJoin]
      · next hc =>
        cases ps <;> simp_all [pyJoin]

/-- Splitting a single separator-free chunk returns just that chunk. -/
theorem pySplitOn_no_sep (sep : Char) :
    ∀ p : PyStr, sep ∉ p → pySplitOn sep p = [p]
  | [], _ => rfl
  | c :: rest, h => by
    have hc : ¬(c = sep) := fun hcc => h (hcc ▸ List.mem_cons_self c rest)
    have ih := pySplitOn_no_sep sep rest (fun hm => h (List.mem_cons_of_mem c hm))
    simp [pySplitOn, ih, hc]

/-- Splitting a separator-free chunk followed by a separator peels off the chunk. -/
theorem pySplitOn_append_sep (sep : Char) :
    ∀ (p t : PyStr), sep ∉ p → pySplitOn sep (p ++ sep :: t) = p :: pySplitOn sep t
  | [], t, _ => by
    cases ht : pySplitOn sep t with
    | nil => exact absurd ht (pySplitOn_ne_nil sep t)
    | cons q qs => simp [pySplitOn, ht]
  | c :: rest, t, h => by
    have hc : ¬(c = sep) := fun hcc => h (hcc ▸ List.mem_cons_self c rest)
    have ih := pySplitOn_append_sep sep rest t (fun hm => h (List.mem_cons_of_mem c hm))
    simp only [List.cons_append, pySplitOn, List.append_eq, ih, hc, if_false]

/-- `split` is a left inverse of `join` on nonempty lists of separator-free chunks. -/
theorem pySplitOn_pyJoin (sep : Char) :
    ∀ parts : List PyStr, parts ≠ [] → (∀ p ∈ parts, sep ∉ p) →
      pySplitOn sep (pyJoin sep parts) = parts
  | [], h, _ => absurd rfl h
  | [p], _, hs => by
    simp only [pyJoin]
    exact pySplitOn_no_sep sep p (hs p (by simp))
  | p :: q :: ps, _, hs => by
    have ih := pySplitOn_pyJoin sep (q :: ps) (by simp)
      (fun r hr => hs r (List.mem_cons_of_mem p hr))
    simp only [pyJoin]
    rw [pySplitOn_append_sep sep p (pyJoin sep (q :: ps)) (hs p (by simp)), ih]

/-- Mapping a character function through a join maps it through each chunk. -/
theorem map_pyJoin (f : Char → Char) (sep : Char) :
    ∀ parts : List PyStr,
      (pyJoin sep parts).map f = pyJoin (f sep) (parts.map (List.map f))
  | [] => rfl
  | [p] => rfl
  | p :: q :: ps => by
    simp only [pyJoin, List.map_append, List.map_cons]
    rw [map_pyJoin f sep (q :: ps)]
    simp only [List.map_cons]

theorem dropWhile_eq_self_of_all {p : Char → Bool} :
    ∀ s : PyStr, (∀ c ∈ s, p c = false) → s.dropWhile p = s
  | [], _ => rfl
  | c :: rest, h => by
    simp [List.dropWhile, h c (List.mem_cons_self c rest)]

/-- A string with no whitespace anywhere is unchanged by `strip()`. -/
theorem pyStrip_eq_self {s : PyStr} (h : ∀ c ∈ s, pyIsSpace c = false) :
    pyStrip s = s := by
  unfold pyStrip
  rw [dropWhile_eq_self_of_all s h,
      dropWhile_eq_self_of_all s.reverse (fun c hc => h c (List.mem_reverse.mp hc)),
      List.reverse_reverse]

/-- Every character of a join is the separator or comes from some chunk. -/
theorem mem_pyJoin {c : Char} {sep : Char} :
    ∀ {parts : List PyStr}, c ∈ pyJoin sep parts → c = sep ∨ ∃ p ∈ parts, c ∈ p
  | [], h => by simp [pyJoin] at h
  | [p], h => by
    simp only [pyJoin] at h
    exact Or.inr ⟨p, by simp, h⟩
  | p :: q :: ps, h => by
    simp only [pyJoin, List.mem_append, List.mem_cons] at h
    rcases h with h | h | h
    · exact Or.inr ⟨p, by simp, h⟩
    · exact Or.inl h
    · rcases mem_pyJoin h with h' | ⟨r, hr, hcr⟩
      · exact Or.inl h'
      · exact Or.inr ⟨r, List.mem_cons_of_mem p hr, hcr⟩

/-! ## `src/models/hotkey.py` -/

/-- `ModifierKey` enum. -/
inductive ModifierKey where
  | ctrl
  | alt
  | shift
  | win
deriving DecidableEq, Repr

/-- `HotkeyType` enum. -/
inductive HotkeyType where
  | keyboard
  | mouse
  | combination
deriving DecidableEq, Repr

/-- `ModifierKey.value`. -/
def ModifierKey.value : ModifierKey → PyStr
  | .ctrl => "ctrl".data
  | .alt => "alt".data
  | .shift => "shift".data
  | .win => "win".data

/-- `ModifierKey(mod_str)`: enum lookup by value; `none` models the
`ValueError` that `HotkeyConfig.parse` turns into its own `ValueError`. -/
def ModifierKey.ofValue (s : PyStr) : Option ModifierKey :=
  if s = "ctrl".data then some .ctrl
  else if s = "alt".data then some .alt
  else if s = "shift".data then some .shift
  else if s = "win".data then some .win
  else none

/-- The modifier-parsing loop of `HotkeyConfig.parse`. -/
def parseModifiers : List PyStr → Option (List ModifierKey)
  | [] => some []
  | m :: rest =>
    match ModifierKey.ofValue m, parseModifiers rest with
    | some mk, some rest' => some (mk :: rest')
    | _, _ => none

/-- The dataclass `HotkeyConfig`. -/
structure HotkeyConfig where
  raw_value : PyStr
  display_name : PyStr
  modifiers : List ModifierKey
  main_key : PyStr
  hotkey_type : HotkeyType
deriving DecidableEq, Repr

/-- The list literal `['middle', 'mouse4', 'mouse5']` used by `parse` and by
`HotkeyManager._get_vk_code`. -/
def mouseMainKeys : List PyStr := ["middle".data, "mouse4".data, "mouse5".data]

/-- `main_key.startswith('f') and main_key[1:].isdigit()`. -/
def isFKeyName (mk : PyStr) : Bool :=
  match mk with
  | 'f' :: rest => !rest.isEmpty && rest.all Char.isDigit
  | _ => false

/-- The per-modifier branch of `HotkeyConfig._generate_display_name`. -/
def ModifierKey.displayPart : ModifierKey → PyStr
  | .ctrl => "Ctrl".data
  | .alt => "Alt".data
  | .shift => "Shift".data
  | .win => "Win".data

/-- The main-key branch of `HotkeyConfig._generate_display_name`. -/
def displayMainKey (mk : PyStr) : PyStr :=
  if mk = "middle".data then "Middle Click".data
  else if mk = "mouse4".data then "Mouse 4".data
  else if mk = "mouse5".data then "Mouse 5".data
  else if mk = "space".data then "Space".data
  else if mk = "tab".data then "Tab".data
  else if isFKeyName mk then pyUpper mk
  else pyUpper mk

/-- `HotkeyConfig._generate_display_name`: modifier parts then the main key,
joined with `"+"`. -/
def generateDisplayName (modifiers : List ModifierKey) (mk : PyStr) : PyStr :=
  pyJoin '+' (modifiers.map ModifierKey.displayPart ++ [displayMainKey mk])

/-- The hotkey-type determination inside `HotkeyConfig.parse`. -/
def hotkeyTypeOf (modifiers : List ModifierKey) (mk : PyStr) : HotkeyType :=
  if mk ∈ mouseMainKeys then
    (if modifiers = [] then HotkeyType.mouse else HotkeyType.combination)
  else
    (if modifiers = [] then HotkeyType.keyboard else HotkeyType.combination)

/-- `HotkeyConfig.parse`: lowercase and strip, split on `'+'`, last part is the
main key, the rest are modifiers; `none` models the `ValueError` raised on an
unknown modifier (the split is never empty, so `parts[-1]` cannot fail). -/
def HotkeyConfig.parse (s : PyStr) : Option HotkeyConfig :=
  let raw := pyStrip (pyLower s)
  let parts := pySplitOn '+' raw
  match parts.getLast? with
  | none => none
  | some mkey =>
    match parseModifiers parts.dropLast with
    | none => none
    | some mods =>
      some ⟨raw, generateDisplayName mods mkey, mods, mkey, hotkeyTypeOf mods mkey⟩

/-- `HotkeyConfig.__str__` returns the display name. -/
def HotkeyConfig.str (c : HotkeyConfig) : PyStr := c.display_name

namespace HotkeyValidator

/-- `HotkeyValidator.VALID_MODIFIERS`. -/
def VALID_MODIFIERS : List PyStr := ["ctrl".data, "alt".data, "shift".data, "win".data]

/-- `HotkeyValidator.VALID_KEYS`. -/
def VALID_KEYS : List PyStr :=
  ["f1".data, "f2".data, "f3".data, "f4".data, "f5".data, "f6".data,
   "f7".data, "f8".data, "f9".data, "f10".data, "f11".data, "f12".data,
   "space".data, "tab".data, "enter".data, "escape".data, "backspace".data,
   "delete".data, "insert".data, "home".data, "end".data, "pageup".data,
   "pagedown".data, "up".data, "down".data, "left".data, "right".data,
   "middle".data, "mouse4".data, "mouse5".data,
   "0".data, "1".data, "2".data, "3".data, "4".data,
   "5".data, "6".data, "7".data, "8".data, "9".data,
   "a".data, "b".data, "c".data, "d".data, "e".data, "f".data, "g".data,
   "h".data, "i".data, "j".data, "k".data, "l".data, "m".data, "n".data,
   "o".data, "p".data, "q".data, "r".data, "s".data, "t".data, "u".data,
   "v".data, "w".data, "x".data, "y".data, "z".data]

/-- `HotkeyValidator.validate_hotkey`: nonempty after stripping, last
`'+'`-separated part a known key, the rest known modifiers with no duplicate. -/
def validate_hotkey (s : PyStr) : Bool :=
  if s = [] then false
  else if pyStrip s = [] then false
  else
    let parts := pySplitOn '+' (pyStrip (pyLower s))
    match parts.getLast? with
    | none => false
    | some mk =>
      let mods := parts.dropLast
      decide (mk ∈ VALID_KEYS) &&
        mods.all (fun m => decide (m ∈ VALID_MODIFIERS)) &&
        decide mods.Nodup

end HotkeyValidator

/-! ## `src/core/hotkey_manager.py` -/

/-- The `HotkeyMethod` enum: the three capture methods, in their file order. -/
inductive HotkeyMethod where
  | keyboardLib
  | win32Register
  | pynput
deriving DecidableEq, Repr

/-- `HotkeyManager.method_priority`. -/
def methodPriority : List HotkeyMethod :=
  [HotkeyMethod.keyboardLib, HotkeyMethod.win32Register, HotkeyMethod.pynput]

/-- Environment of a `HotkeyManager` instance: which optional libraries
imported (`keyboard_available`, `pynput_available`, `get_windows_api()`), and
whether the library-specific registration calls in `_start_keyboard_method` /
`_start_pynput_method` succeed (their exceptions are swallowed and count as
failure, so a single boolean captures each). -/
structure HMEnv where
  keyboard_available : Bool
  keyboard_arm_ok : Bool
  has_windows_api : Bool
  pynput_available : Bool
  pynput_arm_ok : Bool
deriving DecidableEq, Repr

/-- The `HotkeyManager` state touched by configuration and debouncing:
`current_config`, whether a `callback` is stored, `is_listening`,
`active_method`, and `last_trigger_time` (seconds, as `time.time()`). -/
structure HMState where
  current_config : Option HotkeyConfig
  has_callback : Bool
  is_listening : Bool
  active_method : Option HotkeyMethod
  last_trigger_time : ℚ
deriving DecidableEq

/-- `HotkeyManager.__init__`'s configuration state: no config, no callback, not
listening, no active method, `last_trigger_time = 0`. -/
def initialHMState : HMState := ⟨none, false, false, none, 0⟩

/-- `HotkeyManager.min_trigger_interval = 0.2` (200 ms). -/
def minTriggerInterval : ℚ := 1 / 5

/-- `HotkeyManager._should_trigger`: accept when at least the debounce
interval has passed since the last accepted trigger, and only then move the
timestamp forward. Returns (accepted, updated state). -/
def HMState.should_trigger (s : HMState) (now : ℚ) : Bool × HMState :=
  if minTriggerInterval ≤ now - s.last_trigger_time then
    (true, { s with last_trigger_time := now })
  else
    (false, s)

/-- `win32con` virtual-key constants used by `_get_vk_code`. -/
def VK_F1 : Nat := 0x70
def VK_SPACE : Nat := 0x20
def VK_TAB : Nat := 0x09
def VK_RETURN : Nat := 0x0D
def VK_ESCAPE : Nat := 0x1B
def VK_BACK : Nat := 0x08
def VK_DELETE : Nat := 0x2E
def VK_UP : Nat := 0x26
def VK_DOWN : Nat := 0x28
def VK_LEFT : Nat := 0x25
def VK_RIGHT : Nat := 0x27

/-- `win32con` modifier flags used by `_convert_for_win32`. -/
def MOD_ALT : Nat := 0x1
def MOD_CONTROL : Nat := 0x2
def MOD_SHIFT : Nat := 0x4
def MOD_WIN : Nat := 0x8

/-- Flag for one modifier, per the chain in `_convert_for_win32`. -/
def win32ModFlag : ModifierKey → Nat
  | .ctrl => MOD_CONTROL
  | .alt => MOD_ALT
  | .shift => MOD_SHIFT
  | .win => MOD_WIN

/-- `HotkeyManager._get_vk_code`: function keys, then the special-key table,
then single letters/digits; pointer buttons (and anything else) yield `None`. -/
def getVkCode (key : PyStr) : Option Nat :=
  if isFKeyName key then
    match key with
    | _ :: rest =>
      let fNum := rest.foldl (fun n c => n * 10 + (c.toNat - '0'.toNat)) 0
      if 1 ≤ fNum ∧ fNum ≤ 12 then some (VK_F1 + (fNum - 1)) else
      vkAfterFKeys key
    | [] => vkAfterFKeys key
  else vkAfterFKeys key
where
  /-- The part of `_get_vk_code` after the function-key branch. -/
  vkAfterFKeys (key : PyStr) : Option Nat :=
    if key = "space".data then some VK_SPACE
    else if key = "tab".data then some VK_TAB
    else if key = "enter".data then some VK_RETURN
    else if key = "escape".data then some VK_ESCAPE
    else if key = "backspace".data then some VK_BACK
    else if key = "delete".data then some VK_DELETE
    else if key = "up".data then some VK_UP
    else if key = "down".data then some VK_DOWN
    else if key = "left".data then some VK_LEFT
    else if key = "right".data then some VK_RIGHT
    else
      match key with
      | [c] =>
        if c.isAlpha then some c.toUpper.toNat
        else if c.isDigit then some c.toNat
        else none
      | _ => none

/-- `HotkeyManager._convert_for_win32`: OR the modifier flags together, then
look up the virtual key code; `None` when the main key has no code (the code's
`(None, None)` pair). -/
def convertForWin32 (config : HotkeyConfig) : Option (Nat × Nat) :=
  let modFlags := config.modifiers.foldl (fun acc m => acc.lor (win32ModFlag m)) 0
  match getVkCode config.main_key with
  | none => none
  | some vk => some (vk, modFlags)

/-- `HotkeyManager._start_win32_method`: fail when there is no Windows API, no
config, or no virtual-key code — in those cases no message-pump thread is
started; otherwise spawn the pump thread and report success. Result is
(returned value, whether the background thread was started). -/
def startWin32Method (hasApi : Bool) (config : Option HotkeyConfig) : Bool × Bool :=
  if !hasApi then (false, false)
  else
    match config with
    | none => (false, false)
    | some c =>
      match convertForWin32 c with
      | none => (false, false)
      | some _ => (true, true)

/-- Whether one iteration of the `start_listening` method loop arms the given
method for the given config (probe availability plus the method's own start
routine; exceptions are caught by the loop and count as failure). -/
def methodArmOk (env : HMEnv) (config : HotkeyConfig) : HotkeyMethod → Bool
  | .keyboardLib => env.keyboard_available && env.keyboard_arm_ok
  | .win32Register => (startWin32Method env.has_windows_api (some config)).1
  | .pynput => env.pynput_available && env.pynput_arm_ok

/-- The `for method in self.method_priority` loop of `start_listening`. -/
def tryMethods (env : HMEnv) (config : HotkeyConfig) (s : HMState) :
    List HotkeyMethod → Bool × HMState
  | [] => (false, s)
  | m :: rest =>
    if methodArmOk env config m then
      (true, { s with active_method := some m, is_listening := true })
    else
      tryMethods env config s rest

/-- `HotkeyManager.start_listening`: refuse when already listening or without
a config, otherwise try the methods in priority order. -/
def startListening (env : HMEnv) (s : HMState) : Bool × HMState :=
  if s.is_listening then (false, s)
  else
    match s.current_config with
    | none => (false, s)
    | some config => tryMethods env config s methodPriority

/-- `HotkeyManager.stop_listening` (configuration state only: the listener
teardown calls have no effect on the modelled fields): clear the listening
flag and the active method. -/
def stopListening (s : HMState) : HMState :=
  { s with is_listening := false, active_method := none }

/-- `HotkeyManager.set_hotkey`: stop listening, store the config and callback,
then start listening again. -/
def setHotkey (env : HMEnv) (config : HotkeyConfig) (s : HMState) : Bool × HMState :=
  let s1 := stopListening s
  let s2 := { s1 with current_config := some config, has_callback := true }
  startListening env s2

/-! ## `src/models/game_window.py` and `src/core/window_cycler.py` -/

/-- The dataclass `GameWindow` (fields in source order; `is_valid_handle` is an
OS observation and is supplied as an oracle where needed). -/
structure GameWindow where
  hwnd : ℤ
  title : PyStr
  process_name : PyStr
  process_id : ℤ
  character_name : PyStr := []
  game_type : PyStr := []
  icon_path : PyStr := []
  order : ℤ := 0
deriving DecidableEq, Repr

/-- The observer callbacks a `WindowCycler` fires, in firing order. -/
inductive CycleEvent where
  | activated (w : GameWindow)
  | removed (w : GameWindow)
  | cyclingStopped
deriving DecidableEq, Repr

/-- How a `cycle_next` call returned. `noWindows` is the early return on an
empty list; `stoppedEmpty` the return after the list emptied mid-cycle;
`exhausted` the fall-through after `max_attempts` failures; `indexError` a
path where Python would raise `IndexError`; `divergent` marks the inputs
(never reachable from an in-range cursor) on which the Python `while` loop
would not terminate. -/
inductive CycleOutcome where
  | noWindows
  | success
  | exhausted
  | stoppedEmpty
  | indexError
  | divergent
deriving DecidableEq, Repr

/-- The mutable `WindowCycler` state the claims are about: the window list,
the cursor, the hotkey manager's listening flag, and the three counters. -/
structure CyclerState where
  windows : List GameWindow
  current_index : ℤ
  is_listening : Bool
  total_cycles : ℕ
  successful_activations : ℕ
  failed_activations : ℕ
deriving DecidableEq, Repr

/-- `WindowCycler.__init__`: empty list, cursor 0, not listening, zero counters. -/
def initialCyclerState : CyclerState := ⟨[], 0, false, 0, 0, 0⟩

/-- Result of a `cycle_next` call: the new state, the observer callbacks fired
(in order), and how the call returned. -/
structure CycleResult where
  state : CyclerState
  events : List CycleEvent
  outcome : CycleOutcome
deriving DecidableEq, Repr

namespace WindowCycler

/-- `WindowCycler._remove_invalid_window`: pop the window at `index` when in
range, then clamp the cursor to 0 when it fell off the end of the shrunk,
still nonempty list; fires `on_window_removed`. -/
def remove_invalid_window (index : ℤ) (s : CyclerState) :
    CyclerState × List CycleEvent :=
  if 0 ≤ index ∧ index.toNat < s.windows.length then
    match s.windows.get? index.toNat with
    | some removed_window =>
      let ws := s.windows.eraseIdx index.toNat
      let ci := if (ws.length : ℤ) ≤ s.current_index ∧ ws ≠ [] then 0 else s.current_index
      ({ s with windows := ws, current_index := ci }, [.removed removed_window])
    | none => (s, [])
  else (s, [])

/-- `WindowCycler.stop_cycling`: stop the hotkey manager's listening and fire
`on_cycling_stopped`. -/
def stop_cycling (s : CyclerState) : CyclerState × List CycleEvent :=
  ({ s with is_listening := false }, [CycleEvent.cyclingStopped])

/-- The `while attempts < max_attempts` loop of `cycle_next`, on explicit
fuel. One fuel unit is spent per loop iteration (including the final,
condition-failing check), so any fuel above `max_attempts + windows.length`
is enough for every terminating run: each iteration either consumes one of
the `max_attempts` attempts or removes one window. -/
def cycle_next_loop (valid activate : GameWindow → Bool) (maxAttempts : ℕ) :
    ℕ → ℕ → CyclerState → CycleResult
  | _, 0, s => ⟨s, [], .divergent⟩
  | attempts, fuel + 1, s =>
    if attempts < maxAttempts then
      let ci := if (s.windows.length : ℤ) ≤ s.current_index then 0 else s.current_index
      let s1 := { s with current_index := ci }
      match pyIndex s1.windows ci with
      | none => ⟨s1, [], .indexError⟩
      | some window =>
        if !valid window then
          let r1 := remove_invalid_window ci s1
          if r1.1.windows = [] then
            let r2 := stop_cycling r1.1
            ⟨r2.1, r1.2 ++ r2.2, .stoppedEmpty⟩
          else
            let r := cycle_next_loop valid activate maxAttempts attempts fuel r1.1
            ⟨r.state, r1.2 ++ r.events, r.outcome⟩
        else
          if activate window then
            let s2 := { s1 with
              successful_activations := s1.successful_activations + 1,
              current_index := (ci + 1) % (s1.windows.length : ℤ) }
            ⟨s2, [.activated window], .success⟩
          else
            let s2 := { s1 with
              failed_activations := s1.failed_activations + 1,
              current_index := (ci + 1) % (s1.windows.length : ℤ) }
            cycle_next_loop valid activate maxAttempts (attempts + 1) fuel s2
    else ⟨s, [], .exhausted⟩

/-- `WindowCycler.cycle_next`: return silently on an empty list, otherwise
count the trigger and run the bounded retry loop with
`max_attempts = len(self.windows)` and `attempts = 0`. -/
def cycle_next (valid activate : GameWindow → Bool) (s : CyclerState) : CycleResult :=
  if s.windows = [] then ⟨s, [], .noWindows⟩
  else
    let s1 := { s with total_cycles := s.total_cycles + 1 }
    cycle_next_loop valid activate s1.windows.length 0
      (s1.windows.length + s1.windows.length + 1) s1

/-- `WindowCycler.set_windows`: reject an empty input, filter by the liveness
oracle, reject when nothing valid remains, otherwise store the valid windows
sorted ascending by `order` and reset the cursor. -/
def set_windows (valid : GameWindow → Bool) (ws : List GameWindow)
    (s : CyclerState) : Bool × CyclerState :=
  if ws = [] then (false, s)
  else
    let valid_windows := ws.filter valid
    if valid_windows = [] then (false, s)
    else
      (true, { s with
        windows := valid_windows.insertionSort (fun a b => a.order ≤ b.order),
        current_index := 0 })

/-- `WindowCycler.cycle_to_specific`: reject an out-of-range index, remove an
invalid target (returning failure), otherwise activate; only on success move
the cursor to exactly the requested index. -/
def cycle_to_specific (valid activate : GameWindow → Bool) (window_index : ℤ)
    (s : CyclerState) : Bool × CyclerState × List CycleEvent :=
  if s.windows = [] ∨ window_index < 0 ∨ (s.windows.length : ℤ) ≤ window_index then
    (false, s, [])
  else
    match pyIndex s.windows window_index with
    | none => (false, s, [])
    | some window =>
      if !valid window then
        let r := remove_invalid_window window_index s
        (false, r.1, r.2)
      else if activate window then
        (true, { s with current_index := window_index }, [.activated window])
      else
        (false, s, [])

/-- The `for i in range(len(self.windows) - 1, -1, -1)` loop of
`refresh_window_validity`: the argument is one more than the index to check
next, so `n` processes indices `n-1, …, 0`. -/
def refresh_loop (valid : GameWindow → Bool) : ℕ → CyclerState → CyclerState × List CycleEvent
  | 0, s => (s, [])
  | i + 1, s =>
    let r1 :=
      match s.windows.get? i with
      | some w => if !valid w then remove_invalid_window (i : ℤ) s else (s, [])
      | none => (s, [])
    let r2 := refresh_loop valid i r1.1
    (r2.1, r1.2 ++ r2.2)

/-- `WindowCycler.refresh_window_validity`: walk the list backwards removing
every window whose liveness check fails. -/
def refresh_window_validity (valid : GameWindow → Bool) (s : CyclerState) :
    CyclerState × List CycleEvent :=
  refresh_loop valid s.windows.length s

/-- The element-picking loop of `reorder_windows`. -/
def build_reorder (ws : List GameWindow) : List ℤ → Option (List GameWindow)
  | [] => some []
  | o :: rest =>
    if 0 ≤ o ∧ o.toNat < ws.length then
      match ws.get? o.toNat, build_reorder ws rest with
      | some w, some r => some (w :: r)
      | _, _ => none
    else none

/-- `WindowCycler.reorder_windows`: demand a permutation-sized index list with
every index in range; on success install the picked list and reset the cursor. -/
def reorder_windows (new_order : List ℤ) (s : CyclerState) : Bool × CyclerState :=
  if new_order.length ≠ s.windows.length then (false, s)
  else
    match build_reorder s.windows new_order with
    | some nw => (true, { s with windows := nw, current_index := 0 })
    | none => (false, s)

end WindowCycler

/-! ## Claim theorems -/

/-- Windows for the concrete scenarios: handles 1, 2, 3 with orders 1, 2, 3. -/
def winA : GameWindow := ⟨1, [], [], 101, [], [], [], 1⟩

def winB : GameWindow := ⟨2, [], [], 102, [], [], [], 2⟩

def winC : GameWindow := ⟨3, [], [], 103, [], [], [], 3⟩

/-- Liveness oracle under which window B (handle 2) is permanently invalid. -/
def validExceptB : GameWindow → Bool := fun w => decide (w.hwnd ≠ 2)

/-- Activation oracle that always succeeds. -/
def activateAlways : GameWindow → Bool := fun _ => true

/-- C1, counterexample: on `[A(valid,1), B(invalid,2), C(valid,3)]` with cursor
0 and activation succeeding, one `cycle_next` call activates A immediately and
never inspects B — the list keeps length 3, not 2, and B is not removed; in
the `[A(valid), B(invalid)]` scenario the first trigger likewise does not
prune B. -/
theorem c1_counterexample :
    (WindowCycler.cycle_next validExceptB activateAlways
        ⟨[winA, winB, winC], 0, true, 0, 0, 0⟩).state.windows.length = 3 ∧
    ¬ (WindowCycler.cycle_next validExceptB activateAlways
        ⟨[winA, winB, winC], 0, true, 0, 0, 0⟩).state.windows.length = 2 ∧
    CycleEvent.removed winB ∉
      (WindowCycler.cycle_next validExceptB activateAlways
        ⟨[winA, winB, winC], 0, true, 0, 0, 0⟩).events ∧
    CycleEvent.removed winB ∉
      (WindowCycler.cycle_next validExceptB activateAlways
        ⟨[winA, winB], 0, true, 0, 0, 0⟩).events := by
  decide

/-- C1, amended: a single `cycle_next` on `[A(valid,1), B(invalid,2),
C(valid,3)]` with cursor 0 activates A and leaves the list unchanged (length
3, B still present); an invalid window is pruned only when the cursor reaches
it — for `[A(valid), B(permanently invalid)]` the first trigger activates A
without pruning B, and the second trigger prunes B and re-activates A as the
only remaining entry. -/
theorem c1_amended :
    ((WindowCycler.cycle_next validExceptB activateAlways
        ⟨[winA, winB, winC], 0, true, 0, 0, 0⟩).state.windows = [winA, winB, winC] ∧
     (WindowCycler.cycle_next validExceptB activateAlways
        ⟨[winA, winB, winC], 0, true, 0, 0, 0⟩).events = [CycleEvent.activated winA] ∧
     (WindowCycler.cycle_next validExceptB activateAlways
        ⟨[winA, winB, winC], 0, true, 0, 0, 0⟩).outcome = CycleOutcome.success) ∧
    ((WindowCycler.cycle_next validExceptB activateAlways
        ⟨[winA, winB], 0, true, 0, 0, 0⟩).events = [CycleEvent.activated winA] ∧
     (WindowCycler.cycle_next validExceptB activateAlways
        ⟨[winA, winB], 0, true, 0, 0, 0⟩).state.windows = [winA, winB] ∧
     (WindowCycler.cycle_next validExceptB activateAlways
        (WindowCycler.cycle_next validExceptB activateAlways
          ⟨[winA, winB], 0, true, 0, 0, 0⟩).state).events =
        [CycleEvent.removed winB, CycleEvent.activated winA] ∧
     (WindowCycler.cycle_next validExceptB activateAlways
        (WindowCycler.cycle_next validExceptB activateAlways
          ⟨[winA, winB], 0, true, 0, 0, 0⟩).state).state.windows = [winA] ∧
     (WindowCycler.cycle_next validExceptB activateAlways
        (WindowCycler.cycle_next validExceptB activateAlways
          ⟨[winA, winB], 0, true, 0, 0, 0⟩).state).outcome = CycleOutcome.success) := by
  decide

/-- C8: calling `cycle_next` on a freshly constructed `WindowCycler` (before
`set_windows` has stored anything) is a silent no-op toward the caller: the
state — counters included — is unchanged and the call returns normally
through the `noWindows` early exit (only a console print happens); no
exception reaches the caller. -/
theorem c8_cycle_next_before_set_windows (valid activate : GameWindow → Bool) :
    WindowCycler.cycle_next valid activate initialCyclerState =
      ⟨initialCyclerState, [], CycleOutcome.noWindows⟩ := rfl

instance : IsTotal GameWindow (fun a b => a.order ≤ b.order) :=
  ⟨fun a b => Int.le_total a.order b.order⟩

instance : IsTrans GameWindow (fun a b => a.order ≤ b.order) :=
  ⟨fun _ _ _ hab hbc => le_trans hab hbc⟩

/-- C2: `set_windows` filters the input by the liveness oracle; it returns
false exactly when the filtered list is empty (in particular on an empty
input), leaving the state — stored list and cursor included — unchanged;
otherwise it returns true, stores the filtered windows sorted ascending by
`order`, and resets the cursor to 0 (counters and listening flag untouched). -/
theorem c2_set_windows (valid : GameWindow → Bool) (ws : List GameWindow)
    (s : CyclerState) :
    ((WindowCycler.set_windows valid ws s).1 = false ↔ ws.filter valid = []) ∧
    ((WindowCycler.set_windows valid ws s).1 = false →
      (WindowCycler.set_windows valid ws s).2 = s) ∧
    ((WindowCycler.set_windows valid ws s).1 = true →
      (WindowCycler.set_windows valid ws s).2.windows.Perm (ws.filter valid) ∧
      (WindowCycler.set_windows valid ws s).2.windows.Sorted
        (fun a b => a.order ≤ b.order) ∧
      (WindowCycler.set_windows valid ws s).2.current_index = 0 ∧
      (WindowCycler.set_windows valid ws s).2.is_listening = s.is_listening ∧
      (WindowCycler.set_windows valid ws s).2.total_cycles = s.total_cycles ∧
      (WindowCycler.set_windows valid ws s).2.successful_activations =
        s.successful_activations ∧
      (WindowCycler.set_windows valid ws s).2.failed_activations =
        s.failed_activations) := by
  unfold WindowCycler.set_windows
  by_cases h0 : ws = []
  · subst h0
    simp
  · simp only [if_neg h0]
    by_cases h1 : ws.filter valid = []
    · simp [h1]
    · simp only [if_neg h1]
      refine ⟨by simp [h1], by simp, fun _ => ?_⟩
      exact ⟨List.perm_insertionSort _ _, List.sorted_insertionSort _ _,
        by trivial, by trivial, by trivial, by trivial, by trivial⟩

/-- C4: `_should_trigger` accepts a candidate at time `t` iff at least the
200 ms debounce interval has passed since the last accepted trigger; an
accepted candidate moves the stored timestamp to `t`, a rejected one leaves
the state untouched; consequently, once the interval since the last accepted
trigger has elapsed, two candidates less than 200 ms apart produce exactly one
acceptance — the first is accepted and the second dropped. -/
theorem c4_debounce (s : HMState) (t t1 t2 : ℚ)
    (h12 : t2 - t1 < minTriggerInterval)
    (h1 : minTriggerInterval ≤ t1 - s.last_trigger_time) :
    ((s.should_trigger t).1 = true ↔ minTriggerInterval ≤ t - s.last_trigger_time) ∧
    ((s.should_trigger t).1 = true → (s.should_trigger t).2.last_trigger_time = t) ∧
    ((s.should_trigger t).1 = false → (s.should_trigger t).2 = s) ∧
    (s.should_trigger t1).1 = true ∧
    (((s.should_trigger t1).2).should_trigger t2).1 = false := by
  have hrej : ¬ minTriggerInterval ≤ t2 - t1 := by linarith
  refine ⟨?_, ?_, ?_, ?_, ?_⟩
  · by_cases h : minTriggerInterval ≤ t - s.last_trigger_time <;>
      simp [HMState.should_trigger, h]
  · by_cases h : minTriggerInterval ≤ t - s.last_trigger_time <;>
      simp [HMState.should_trigger, h]
  · by_cases h : minTriggerInterval ≤ t - s.last_trigger_time <;>
      simp [HMState.should_trigger, h]
  · simp [HMState.should_trigger, h1]
  · simp [HMState.should_trigger, h1, hrej]

/-- Witness for `c4_debounce` at `last_trigger_time = 0`, `t = t1 = 1/5`,
`t2 = 3/10`: the first candidate is accepted, the second (100 ms later)
dropped. -/
theorem c4_debounce_witness :
    ((initialHMState.should_trigger (1/5)).1 = true ↔
        minTriggerInterval ≤ (1/5 : ℚ) - initialHMState.last_trigger_time) ∧
    ((initialHMState.should_trigger (1/5)).1 = true →
        (initialHMState.should_trigger (1/5)).2.last_trigger_time = 1/5) ∧
    ((initialHMState.should_trigger (1/5)).1 = false →
        (initialHMState.should_trigger (1/5)).2 = initialHMState) ∧
    (initialHMState.should_trigger (1/5)).1 = true ∧
    (((initialHMState.should_trigger (1/5)).2).should_trigger (3/10)).1 = false :=
  c4_debounce initialHMState (1/5) (1/5) (3/10)
    (by norm_num [minTriggerInterval])
    (by norm_num [minTriggerInterval, initialHMState])

/-- C6: for a combo whose main key is a pointer button (`middle`, `mouse4`,
`mouse5`), `_get_vk_code` yields no virtual-key code, so
`_start_win32_method` returns false without starting the message-pump
thread, whatever the modifiers and whether or not the Windows API is
available. -/
theorem c6_win32_pointer_button_fails_fast (c : HotkeyConfig)
    (h : c.main_key ∈ mouseMainKeys) :
    getVkCode c.main_key = none ∧
      ∀ hasApi : Bool, startWin32Method hasApi (some c) = (false, false) := by
  have hvk : getVkCode c.main_key = none := by
    simp only [mouseMainKeys, List.mem_cons, List.mem_singleton,
      List.not_mem_nil, or_false] at h
    rcases h with h | h | h <;> rw [h] <;> decide
  have hcv : convertForWin32 c = none := by
    unfold convertForWin32
    rw [hvk]
  refine ⟨hvk, fun hasApi => ?_⟩
  cases hasApi
  · rfl
  · simp [startWin32Method, hcv]

/-- The config `parse("ctrl+middle")` produces. -/
def ctrlMiddleConfig : HotkeyConfig :=
  ⟨"ctrl+middle".data, "Ctrl+Middle Click".data, [ModifierKey.ctrl],
    "middle".data, HotkeyType.combination⟩

/-- Witness for `c6_win32_pointer_button_fails_fast` on `ctrl+middle` with
the Windows API present. -/
theorem c6_witness :
    ctrlMiddleConfig.main_key ∈ mouseMainKeys ∧
    getVkCode ctrlMiddleConfig.main_key = none ∧
    startWin32Method true (some ctrlMiddleConfig) = (false, false) :=
  ⟨by decide,
   (c6_win32_pointer_button_fails_fast ctrlMiddleConfig (by decide)).1,
   (c6_win32_pointer_button_fails_fast ctrlMiddleConfig (by decide)).2 true⟩

/-- C5: for every syntactically valid combo, `set_hotkey` first disarms any
prior method and then tries the capture methods in the fixed priority order
keyboard-library, Win32-RegisterHotKey, pynput: it returns true exactly when
some method arms, recording precisely the first arming method as active with
the listening flag set; when every method fails it returns false with no
method armed and the listening flag cleared — never false with a method left
armed. -/
theorem c5_set_hotkey_arms_one_or_none (env : HMEnv) (config : HotkeyConfig)
    (s : HMState)
    (hv : HotkeyValidator.validate_hotkey config.raw_value = true) :
    ((setHotkey env config s).1 = true ↔
        (methodPriority.find? (methodArmOk env config)).isSome) ∧
    ((setHotkey env config s).1 = true →
        (setHotkey env config s).2.is_listening = true ∧
        (setHotkey env config s).2.active_method =
          methodPriority.find? (methodArmOk env config)) ∧
    ((setHotkey env config s).1 = false →
        (setHotkey env config s).2.is_listening = false ∧
        (setHotkey env config s).2.active_method = none) := by
  clear hv
  unfold setHotkey startListening stopListening
  cases hk : methodArmOk env config HotkeyMethod.keyboardLib <;>
    cases hw : methodArmOk env config HotkeyMethod.win32Register <;>
    cases hp : methodArmOk env config HotkeyMethod.pynput <;>
    simp [tryMethods, methodPriority, List.find?, hk, hw, hp]

/-- The config `parse("ctrl+f5")` produces. -/
def ctrlF5Config : HotkeyConfig :=
  ⟨"ctrl+f5".data, "Ctrl+F5".data, [ModifierKey.ctrl], "f5".data,
    HotkeyType.combination⟩

/-- An environment where every capture library is present and arms. -/
def allOkEnv : HMEnv := ⟨true, true, true, true, true⟩

/-- Witness for `c5_set_hotkey_arms_one_or_none` on the valid combo
`ctrl+f5` in a fresh manager with every method available: the keyboard
library (first in priority) arms. -/
theorem c5_witness :
    ((setHotkey allOkEnv ctrlF5Config initialHMState).1 = true ↔
        (methodPriority.find? (methodArmOk allOkEnv ctrlF5Config)).isSome) ∧
    ((setHotkey allOkEnv ctrlF5Config initialHMState).1 = true →
        (setHotkey allOkEnv ctrlF5Config initialHMState).2.is_listening = true ∧
        (setHotkey allOkEnv ctrlF5Config initialHMState).2.active_method =
          methodPriority.find? (methodArmOk allOkEnv ctrlF5Config)) ∧
    ((setHotkey allOkEnv ctrlF5Config initialHMState).1 = false →
        (setHotkey allOkEnv ctrlF5Config initialHMState).2.is_listening = false ∧
        (setHotkey allOkEnv ctrlF5Config initialHMState).2.active_method = none) :=
  c5_set_hotkey_arms_one_or_none allOkEnv ctrlF5Config initialHMState (by decide)

/-- Running the `cycle_next` retry loop from a nonnegative cursor over a
nonempty list of windows that are all valid while every activation fails
performs exactly `maxAttempts - attempts` failing attempts and then returns
silently: no events, `exhausted` outcome, list and other counters unchanged. -/
theorem cycle_next_loop_all_fail (valid activate : GameWindow → Bool)
    (maxAttempts : ℕ) :
    ∀ (fuel attempts : ℕ) (s : CyclerState),
      maxAttempts - attempts < fuel →
      attempts ≤ maxAttempts →
      s.windows ≠ [] →
      (∀ w ∈ s.windows, valid w = true) →
      (∀ w, activate w = false) →
      0 ≤ s.current_index →
      (WindowCycler.cycle_next_loop valid activate maxAttempts attempts fuel s).outcome =
          CycleOutcome.exhausted ∧
      (WindowCycler.cycle_next_loop valid activate maxAttempts attempts fuel s).events = [] ∧
      (WindowCycler.cycle_next_loop valid activate maxAttempts attempts fuel s).state.windows =
          s.windows ∧
      (WindowCycler.cycle_next_loop valid activate maxAttempts attempts fuel s).state.total_cycles =
          s.total_cycles ∧
      (WindowCycler.cycle_next_loop valid activate maxAttempts attempts fuel
          s).state.successful_activations = s.successful_activations ∧
      (WindowCycler.cycle_next_loop valid activate maxAttempts attempts fuel
          s).state.failed_activations =
        s.failed_activations + (maxAttempts - attempts) := by
  intro fuel
  induction fuel with
  | zero => intro attempts s hfuel; omega
  | succ fuel ih =>
    intro attempts s hfuel hle hne hval hact hci
    by_cases hlt : attempts < maxAttempts
    · have hlen : 0 < s.windows.length := List.length_pos.mpr hne
      set ci : ℤ :=
        if (s.windows.length : ℤ) ≤ s.current_index then 0 else s.current_index
        with hcidef
      have hci0 : 0 ≤ ci := by
        rw [hcidef]; split
        · exact le_refl 0
        · exact hci
      have hcilt : ci < (s.windows.length : ℤ) := by
        rw [hcidef]; split
        · exact_mod_cast hlen
        · omega
      have hcinat : ci.toNat < s.windows.length := by omega
      obtain ⟨w, hw⟩ : ∃ w, s.windows.get? ci.toNat = some w := by
        rw [List.get?_eq_get hcinat]
        exact ⟨_, rfl⟩
      have hwmem : w ∈ s.windows := List.get?_mem hw
      have hidx : pyIndex s.windows ci = some w := by
        unfold pyIndex
        rw [if_pos hci0, hw]
      have hvw : valid w = true := hval w hwmem
      have haw : activate w = false := hact w
      simp only [WindowCycler.cycle_next_loop, if_pos hlt, ← hcidef, hidx, hvw,
        Bool.not_true, Bool.false_eq_true, if_false, haw]
      have hstep := ih (attempts + 1)
        { s with failed_activations := s.failed_activations + 1,
                 current_index := (ci + 1) % (s.windows.length : ℤ) }
        (by omega) (by omega) hne (by exact hval) hact
        (by exact Int.emod_nonneg _ (by omega))
      refine ⟨hstep.1, hstep.2.1, hstep.2.2.1, hstep.2.2.2.1, hstep.2.2.2.2.1, ?_⟩
      rw [hstep.2.2.2.2.2]
      dsimp only
      omega
    · have hdiff : maxAttempts - attempts = 0 := by omega
      simp only [WindowCycler.cycle_next_loop, if_neg hlt, hdiff]
      refine ⟨?_, ?_, ?_, ?_, ?_, ?_⟩ <;> first | trivial | (dsimp only; omega)

/-- C3: on a nonempty list of `N` windows that are all valid while every
activation attempt fails (and a cursor that is, as always reachable,
nonnegative), one `cycle_next` call increments the total-trigger counter by
exactly 1 and the failed-activation counter by exactly `N`, fires no
callback, activates nothing, and returns normally through the exhausted
branch — no exception. -/
theorem c3_exhausting_advance (valid activate : GameWindow → Bool)
    (s : CyclerState) (hne : s.windows ≠ [])
    (hval : ∀ w ∈ s.windows, valid w = true)
    (hact : ∀ w, activate w = false)
    (hci : 0 ≤ s.current_index) :
    (WindowCycler.cycle_next valid activate s).state.total_cycles =
        s.total_cycles + 1 ∧
    (WindowCycler.cycle_next valid activate s).state.failed_activations =
        s.failed_activations + s.windows.length ∧
    (WindowCycler.cycle_next valid activate s).outcome = CycleOutcome.exhausted ∧
    (WindowCycler.cycle_next valid activate s).events = [] ∧
    (WindowCycler.cycle_next valid activate s).state.successful_activations =
        s.successful_activations ∧
    (WindowCycler.cycle_next valid activate s).state.windows = s.windows := by
  unfold WindowCycler.cycle_next
  rw [if_neg hne]
  have h := cycle_next_loop_all_fail valid activate s.windows.length
    (s.windows.length + s.windows.length + 1) 0
    { s with total_cycles := s.total_cycles + 1 }
    (by omega) (by omega) hne hval hact hci
  exact ⟨h.2.2.2.1, by rw [h.2.2.2.2.2]; dsimp only; omega, h.1, h.2.1,
    h.2.2.2.2.1, h.2.2.1⟩

/-- Witness for `c3_exhausting_advance`: two valid windows, activation always
failing — one trigger, two failed attempts, no events, exhausted return. -/
theorem c3_witness :
    (WindowCycler.cycle_next (fun _ => true) (fun _ => false)
        ⟨[winA, winB], 0, true, 0, 0, 0⟩).state.total_cycles = 0 + 1 ∧
    (WindowCycler.cycle_next (fun _ => true) (fun _ => false)
        ⟨[winA, winB], 0, true, 0, 0, 0⟩).state.failed_activations =
      0 + ([winA, winB].length) ∧
    (WindowCycler.cycle_next (fun _ => true) (fun _ => false)
        ⟨[winA, winB], 0, true, 0, 0, 0⟩).outcome = CycleOutcome.exhausted ∧
    (WindowCycler.cycle_next (fun _ => true) (fun _ => false)
        ⟨[winA, winB], 0, true, 0, 0, 0⟩).events = [] ∧
    (WindowCycler.cycle_next (fun _ => true) (fun _ => false)
        ⟨[winA, winB], 0, true, 0, 0, 0⟩).state.successful_activations = 0 ∧
    (WindowCycler.cycle_next (fun _ => true) (fun _ => false)
        ⟨[winA, winB], 0, true, 0, 0, 0⟩).state.windows = [winA, winB] :=
  c3_exhausting_advance (fun _ => true) (fun _ => false)
    ⟨[winA, winB], 0, true, 0, 0, 0⟩ (by decide)
    (fun _ _ => rfl) (fun _ => rfl) (by decide)

/-- The cursor-in-range invariant: whenever the stored list is nonempty,
`0 <= current_index < len(windows)`. -/
abbrev CursorInv (s : CyclerState) : Prop :=
  s.windows ≠ [] → 0 ≤ s.current_index ∧ s.current_index < (s.windows.length : ℤ)

theorem pyIndex_ne_nil {α : Type} {l : List α} {i : ℤ} {w : α}
    (h : pyIndex l i = some w) : l ≠ [] := by
  rintro rfl
  unfold pyIndex at h
  split at h
  · simp at h
  · split at h <;> simp at h

theorem remove_invalid_window_inv (i : ℤ) (s : CyclerState) (h : CursorInv s) :
    CursorInv (WindowCycler.remove_invalid_window i s).1 := by
  unfold WindowCycler.remove_invalid_window
  by_cases h1 : 0 ≤ i ∧ i.toNat < s.windows.length
  · rw [if_pos h1]
    obtain ⟨w, hw⟩ : ∃ w, s.windows.get? i.toNat = some w := by
      rw [List.get?_eq_get h1.2]
      exact ⟨_, rfl⟩
    simp only [hw]
    by_cases hc : ((s.windows.eraseIdx i.toNat).length : ℤ) ≤ s.current_index ∧
        s.windows.eraseIdx i.toNat ≠ []
    · rw [if_pos hc]
      intro hne
      have hpos : 0 < (s.windows.eraseIdx i.toNat).length :=
        List.length_pos.mpr (by exact hne)
      refine ⟨le_refl 0, ?_⟩
      show (0 : ℤ) < ((s.windows.eraseIdx i.toNat).length : ℤ)
      exact_mod_cast hpos
    · rw [if_neg hc]
      intro hne
      have hws : s.windows ≠ [] := by
        intro hnil
        rw [hnil] at h1
        simp at h1
      rcases h hws with ⟨hlo, hhi⟩
      have hnle : ¬ ((s.windows.eraseIdx i.toNat).length : ℤ) ≤ s.current_index :=
        fun hle => hc ⟨hle, by exact hne⟩
      refine ⟨hlo, ?_⟩
      show s.current_index < ((s.windows.eraseIdx i.toNat).length : ℤ)
      omega
  · rw [if_neg h1]
    exact h

theorem wrap_index_inv (s : CyclerState) (h : CursorInv s) :
    CursorInv { s with current_index :=
      if (s.windows.length : ℤ) ≤ s.current_index then 0 else s.current_index } := by
  by_cases hc : (s.windows.length : ℤ) ≤ s.current_index
  · rw [if_pos hc]
    intro hne
    have hlen : 0 < s.windows.length := List.length_pos.mpr (by exact hne)
    refine ⟨le_refl 0, ?_⟩
    show (0 : ℤ) < (s.windows.length : ℤ)
    exact_mod_cast hlen
  · rw [if_neg hc]
    intro hne
    exact h (by exact hne)

theorem cycle_next_loop_inv (valid activate : GameWindow → Bool) (maxAttempts : ℕ) :
    ∀ (fuel attempts : ℕ) (s : CyclerState), CursorInv s →
      CursorInv
        (WindowCycler.cycle_next_loop valid activate maxAttempts attempts fuel s).state := by
  intro fuel
  induction fuel with
  | zero => intro att s h; exact h
  | succ fuel ih =>
    intro att s h
    by_cases hlt : att < maxAttempts
    · have hwrap := wrap_index_inv s h
      simp only [WindowCycler.cycle_next_loop, if_pos hlt]
      set ciw : ℤ :=
        if (s.windows.length : ℤ) ≤ s.current_index then 0 else s.current_index
        with hciw
      split
      · exact hwrap
      · next w heq =>
        have hne : s.windows ≠ [] := by
          intro hnil
          exact pyIndex_ne_nil heq (by exact hnil)
        have hlen : 0 < s.windows.length := List.length_pos.mpr hne
        split
        · -- window invalid: remove it
          split
          · -- list emptied: cycling stops, invariant vacuous
            next hemp =>
              intro hne2
              exact absurd hemp (by exact hne2)
          · -- list still nonempty: continue the loop
            exact ih att _ (remove_invalid_window_inv _ _ hwrap)
        · -- window valid
          split
          · -- activation succeeded: cursor becomes (ci+1) mod len
            intro hne2
            refine ⟨by exact Int.emod_nonneg _ (by omega), ?_⟩
            show (ciw + 1) % ((s.windows.length : ℤ)) < ((s.windows.length : ℤ))
            exact Int.emod_lt_of_pos _ (by exact_mod_cast hlen)
          · -- activation failed: one more attempt from the advanced cursor
            apply ih
            intro hne2
            refine ⟨by exact Int.emod_nonneg _ (by omega), ?_⟩
            show (ciw + 1) % ((s.windows.length : ℤ)) < ((s.windows.length : ℤ))
            exact Int.emod_lt_of_pos _ (by exact_mod_cast hlen)
    · simp only [WindowCycler.cycle_next_loop, if_neg hlt]
      exact h

theorem cycle_next_inv (valid activate : GameWindow → Bool) (s : CyclerState)
    (h : CursorInv s) :
    CursorInv (WindowCycler.cycle_next valid activate s).state := by
  unfold WindowCycler.cycle_next
  by_cases hne : s.windows = []
  · rw [if_pos hne]
    exact h
  · rw [if_neg hne]
    exact cycle_next_loop_inv valid activate _ _ _ _ (fun hne2 => h (by exact hne2))

theorem cycle_to_specific_inv (valid activate : GameWindow → Bool)
    (window_index : ℤ) (s : CyclerState) (h : CursorInv s) :
    CursorInv (WindowCycler.cycle_to_specific valid activate window_index s).2.1 := by
  unfold WindowCycler.cycle_to_specific
  by_cases hrej : s.windows = [] ∨ window_index < 0 ∨
      (s.windows.length : ℤ) ≤ window_index
  · rw [if_pos hrej]
    exact h
  · rw [if_neg hrej]
    push_neg at hrej
    split
    · exact h
    · split
      · exact remove_invalid_window_inv _ _ h
      · split
        · intro hne
          exact ⟨hrej.2.1, hrej.2.2⟩
        · exact h

theorem refresh_loop_inv (valid : GameWindow → Bool) :
    ∀ (n : ℕ) (s : CyclerState), CursorInv s →
      CursorInv (WindowCycler.refresh_loop valid n s).1
  | 0, s, h => h
  | n + 1, s, h => by
    simp only [WindowCycler.refresh_loop]
    apply refresh_loop_inv valid n
    split
    · split
      · exact remove_invalid_window_inv _ _ h
      · exact h
    · exact h

theorem refresh_window_validity_inv (valid : GameWindow → Bool) (s : CyclerState)
    (h : CursorInv s) :
    CursorInv (WindowCycler.refresh_window_validity valid s).1 :=
  refresh_loop_inv valid s.windows.length s h

theorem reorder_windows_inv (new_order : List ℤ) (s : CyclerState)
    (h : CursorInv s) :
    CursorInv (WindowCycler.reorder_windows new_order s).2 := by
  unfold WindowCycler.reorder_windows
  split
  · exact h
  · split
    · intro hne
      refine ⟨le_refl 0, ?_⟩
      next nw _ =>
        have : 0 < nw.length := List.length_pos.mpr (by exact hne)
        show (0 : ℤ) < (nw.length : ℤ)
        exact_mod_cast this
    · exact h

theorem set_windows_inv (valid : GameWindow → Bool) (ws : List GameWindow)
    (s : CyclerState) (h : CursorInv s) :
    CursorInv (WindowCycler.set_windows valid ws s).2 := by
  by_cases h0 : ws = []
  · unfold WindowCycler.set_windows
    rw [if_pos h0]
    exact h
  · by_cases h1 : ws.filter valid = []
    · have : (WindowCycler.set_windows valid ws s).2 = s := by
        simp [WindowCycler.set_windows, h0, h1]
      rw [this]
      exact h
    · unfold WindowCycler.set_windows
      simp only [if_neg h0, if_neg h1]
      intro hne
      refine ⟨le_refl 0, ?_⟩
      show (0 : ℤ) <
        (((ws.filter valid).insertionSort (fun a b => a.order ≤ b.order)).length : ℤ)
      have : 0 < ((ws.filter valid).insertionSort
          (fun a b => a.order ≤ b.order)).length :=
        List.length_pos.mpr (by exact hne)
      exact_mod_cast this

/-- C9: each public operation preserves the cursor-in-range invariant — after
`set_windows`, `cycle_next`, `cycle_to_specific`, `refresh_window_validity`
or `reorder_windows`, a nonempty stored list always has
`0 <= current_index < len(windows)`; and every invalid-window removal clamps
a cursor that fell off the end of the shrunk, still nonempty list back to 0. -/
theorem c9_cursor_in_range (valid activate : GameWindow → Bool)
    (ws : List GameWindow) (new_order : List ℤ) (i j : ℤ) (s : CyclerState)
    (h : CursorInv s) :
    CursorInv (WindowCycler.set_windows valid ws s).2 ∧
    CursorInv (WindowCycler.cycle_next valid activate s).state ∧
    CursorInv (WindowCycler.cycle_to_specific valid activate i s).2.1 ∧
    CursorInv (WindowCycler.refresh_window_validity valid s).1 ∧
    CursorInv (WindowCycler.reorder_windows new_order s).2 ∧
    (0 ≤ j → j.toNat < s.windows.length →
      (WindowCycler.remove_invalid_window j s).1.windows ≠ [] →
      ((WindowCycler.remove_invalid_window j s).1.windows.length : ℤ) ≤
        s.current_index →
      (WindowCycler.remove_invalid_window j s).1.current_index = 0) := by
  refine ⟨set_windows_inv valid ws s h, cycle_next_inv valid activate s h,
    cycle_to_specific_inv valid activate i s h,
    refresh_window_validity_inv valid s h,
    reorder_windows_inv new_order s h, ?_⟩
  intro hj0 hjlt hne hle
  unfold WindowCycler.remove_invalid_window at *
  rw [if_pos ⟨hj0, hjlt⟩] at *
  obtain ⟨w, hw⟩ : ∃ w, s.windows.get? j.toNat = some w := by
    rw [List.get?_eq_get hjlt]
    exact ⟨_, rfl⟩
  simp only [hw] at *
  rw [if_pos ⟨by exact hle, by exact hne⟩]

/-- Witness for `c9_cursor_in_range` on a concrete two-window state with the
cursor at 1: all five operations leave the cursor in range, and removing the
window at index 1 clamps the cursor back to 0. -/
theorem c9_witness :
    CursorInv (WindowCycler.set_windows validExceptB [winC]
      ⟨[winA, winB], 1, true, 0, 0, 0⟩).2 ∧
    CursorInv (WindowCycler.cycle_next validExceptB activateAlways
      ⟨[winA, winB], 1, true, 0, 0, 0⟩).state ∧
    CursorInv (WindowCycler.cycle_to_specific validExceptB activateAlways 0
      ⟨[winA, winB], 1, true, 0, 0, 0⟩).2.1 ∧
    CursorInv (WindowCycler.refresh_window_validity validExceptB
      ⟨[winA, winB], 1, true, 0, 0, 0⟩).1 ∧
    CursorInv (WindowCycler.reorder_windows [1, 0]
      ⟨[winA, winB], 1, true, 0, 0, 0⟩).2 ∧
    (0 ≤ (1 : ℤ) → (1 : ℤ).toNat < ([winA, winB] : List GameWindow).length →
      (WindowCycler.remove_invalid_window 1
        ⟨[winA, winB], 1, true, 0, 0, 0⟩).1.windows ≠ [] →
      ((WindowCycler.remove_invalid_window 1
        ⟨[winA, winB], 1, true, 0, 0, 0⟩).1.windows.length : ℤ) ≤ 1 →
      (WindowCycler.remove_invalid_window 1
        ⟨[winA, winB], 1, true, 0, 0, 0⟩).1.current_index = 0) :=
  c9_cursor_in_range validExceptB activateAlways [winC] [1, 0] 0 1
    ⟨[winA, winB], 1, true, 0, 0, 0⟩ (by decide)

/-- One `cycle_next` call on a state whose cursor is in range and points at a
valid window that activates successfully: exactly that window is activated,
the trigger and success counters step, and the cursor moves one past the
activated window (mod length). -/
theorem cycle_next_first_success (valid activate : GameWindow → Bool)
    (s : CyclerState) (w : GameWindow)
    (h0 : 0 ≤ s.current_index) (h1 : s.current_index < (s.windows.length : ℤ))
    (hw : pyIndex s.windows s.current_index = some w)
    (hv : valid w = true) (ha : activate w = true) :
    WindowCycler.cycle_next valid activate s =
      ⟨{ s with total_cycles := s.total_cycles + 1,
                successful_activations := s.successful_activations + 1,
                current_index := (s.current_index + 1) % (s.windows.length : ℤ) },
        [CycleEvent.activated w], CycleOutcome.success⟩ := by
  have hne : s.windows ≠ [] := pyIndex_ne_nil hw
  have hlen : 0 < s.windows.length := List.length_pos.mpr hne
  simp only [WindowCycler.cycle_next, if_neg hne]
  simp only [WindowCycler.cycle_next_loop]
  have hpos : 0 <
      ({ s with total_cycles := s.total_cycles + 1 } : CyclerState).windows.length := by
    show 0 < s.windows.length
    exact hlen
  rw [if_pos hpos]
  have hwrapneg : ¬ ((({ s with total_cycles := s.total_cycles + 1 } :
        CyclerState).windows.length : ℤ) ≤
      ({ s with total_cycles := s.total_cycles + 1 } : CyclerState).current_index) := by
    show ¬ ((s.windows.length : ℤ) ≤ s.current_index)
    omega
  rw [if_neg hwrapneg]
  have hidx : pyIndex
      ({ s with total_cycles := s.total_cycles + 1 } : CyclerState).windows
      ({ s with total_cycles := s.total_cycles + 1 } : CyclerState).current_index =
      some w := hw
  simp only [hidx, hv, ha, Bool.not_true, Bool.false_eq_true, if_false, if_true]

/-- C10: after a successful `cycle_to_specific(i)` the cursor is exactly `i`
(not one past it), so the immediately following `cycle_next` re-activates the
same window `i` — and, as with every successful advance, only then leaves the
cursor one past the activated window, at `(i+1) mod len`. -/
theorem c10_jump_then_advance (valid activate : GameWindow → Bool)
    (s : CyclerState) (i : ℤ) (w : GameWindow)
    (h0 : 0 ≤ i) (h1 : i < (s.windows.length : ℤ))
    (hw : pyIndex s.windows i = some w)
    (hv : valid w = true) (ha : activate w = true) :
    (WindowCycler.cycle_to_specific valid activate i s).1 = true ∧
    (WindowCycler.cycle_to_specific valid activate i s).2.1.current_index = i ∧
    (WindowCycler.cycle_to_specific valid activate i s).2.1.windows = s.windows ∧
    (WindowCycler.cycle_next valid activate
        (WindowCycler.cycle_to_specific valid activate i s).2.1).events =
      [CycleEvent.activated w] ∧
    (WindowCycler.cycle_next valid activate
        (WindowCycler.cycle_to_specific valid activate i s).2.1).outcome =
      CycleOutcome.success ∧
    (WindowCycler.cycle_next valid activate
        (WindowCycler.cycle_to_specific valid activate i s).2.1).state.current_index =
      (i + 1) % (s.windows.length : ℤ) := by
  have hne : s.windows ≠ [] := pyIndex_ne_nil hw
  have hreject : ¬ (s.windows = [] ∨ i < 0 ∨ (s.windows.length : ℤ) ≤ i) := by
    push_neg
    exact ⟨hne, h0, h1⟩
  have hspec : WindowCycler.cycle_to_specific valid activate i s =
      (true, { s with current_index := i }, [CycleEvent.activated w]) := by
    unfold WindowCycler.cycle_to_specific
    rw [if_neg hreject]
    simp only [hw, hv, ha, Bool.not_true, Bool.false_eq_true, if_false, if_true]
  have hkey := cycle_next_first_success valid activate
    { s with current_index := i } w (by exact h0) (by exact h1) (by exact hw) hv ha
  rw [hspec, hkey]
  exact ⟨rfl, rfl, rfl, rfl, rfl, rfl⟩

/-- Witness for `c10_jump_then_advance`: jump to index 0 of a two-window
list, then advance — the same window is activated again and the cursor ends
at `(0+1) mod 2 = 1`. -/
theorem c10_witness :
    (WindowCycler.cycle_to_specific (fun _ => true) activateAlways 0
      ⟨[winA, winB], 1, true, 0, 0, 0⟩).1 = true ∧
    (WindowCycler.cycle_to_specific (fun _ => true) activateAlways 0
      ⟨[winA, winB], 1, true, 0, 0, 0⟩).2.1.current_index = 0 ∧
    (WindowCycler.cycle_to_specific (fun _ => true) activateAlways 0
      ⟨[winA, winB], 1, true, 0, 0, 0⟩).2.1.windows = [winA, winB] ∧
    (WindowCycler.cycle_next (fun _ => true) activateAlways
        (WindowCycler.cycle_to_specific (fun _ => true) activateAlways 0
          ⟨[winA, winB], 1, true, 0, 0, 0⟩).2.1).events =
      [CycleEvent.activated winA] ∧
    (WindowCycler.cycle_next (fun _ => true) activateAlways
        (WindowCycler.cycle_to_specific (fun _ => true) activateAlways 0
          ⟨[winA, winB], 1, true, 0, 0, 0⟩).2.1).outcome = CycleOutcome.success ∧
    (WindowCycler.cycle_next (fun _ => true) activateAlways
        (WindowCycler.cycle_to_specific (fun _ => true) activateAlways 0
          ⟨[winA, winB], 1, true, 0, 0, 0⟩).2.1).state.current_index =
      (0 + 1) % (([winA, winB] : List GameWindow).length : ℤ) :=
  c10_jump_then_advance (fun _ => true) activateAlways
    ⟨[winA, winB], 1, true, 0, 0, 0⟩ 0 winA (by decide) (by decide) (by decide)
    rfl rfl

/-! ## C7: parse / display round trip -/

theorem ModifierKey.displayPart_lower (m : ModifierKey) :
    pyLower m.displayPart = m.value := by
  cases m <;> decide

theorem ModifierKey.value_chars (m : ModifierKey) :
    m.value ≠ [] ∧ ∀ c ∈ m.value, pyIsSpace c = false ∧ c ≠ '+' := by
  cases m <;> decide

theorem ModifierKey.ofValue_value (m : ModifierKey) :
    ModifierKey.ofValue m.value = some m := by
  cases m <;> decide

theorem ModifierKey.ofValue_eq_some {s : PyStr} {m : ModifierKey}
    (h : ModifierKey.ofValue s = some m) : s = m.value := by
  unfold ModifierKey.ofValue at h
  split_ifs at h with h1 h2 h3 h4 <;>
    simp only [Option.some.injEq] at h <;>
    subst h <;>
    simp_all [ModifierKey.value]

theorem parseModifiers_eq_some : ∀ {l : List PyStr} {mods : List ModifierKey},
    parseModifiers l = some mods → l = mods.map ModifierKey.value
  | [], mods, h => by
    simp only [parseModifiers, Option.some.injEq] at h
    subst h
    rfl
  | m :: rest, mods, h => by
    unfold parseModifiers at h
    cases ho : ModifierKey.ofValue m with
    | none => rw [ho] at h; simp at h
    | some mk =>
      rw [ho] at h
      cases hr : parseModifiers rest with
      | none => rw [hr] at h; simp at h
      | some rest' =>
        rw [hr] at h
        simp only [Option.some.injEq] at h
        subst h
        simp only [List.map_cons]
        exact congrArg₂ (· :: ·) (ModifierKey.ofValue_eq_some ho)
          (parseModifiers_eq_some hr)

/-- Key facts about every valid non-pointer-button main key: lowering its
display form gives the key back, it is nonempty, and it contains no
whitespace and no `'+'`. -/
theorem validKey_facts : ∀ k ∈ HotkeyValidator.VALID_KEYS, k ∉ mouseMainKeys →
    pyLower (displayMainKey k) = k ∧ k ≠ [] ∧
      ∀ c ∈ k, pyIsSpace c = false ∧ c ≠ '+' := by
  decide

/-- The config `parse("middle")` produces: the display form is
`"Middle Click"`, which contains a space. -/
def middleConfig : HotkeyConfig :=
  ⟨"middle".data, "Middle Click".data, [], "middle".data, HotkeyType.mouse⟩

/-- C7, counterexample: `"middle"` is a valid combo, but parsing the string
form (`__str__`, the display name `"Middle Click"`) of its parse does not
reproduce the config — the reparse yields main key `"middle click"`. -/
theorem c7_counterexample :
    HotkeyValidator.validate_hotkey "middle".data = true ∧
    HotkeyConfig.parse "middle".data = some middleConfig ∧
    HotkeyConfig.parse middleConfig.str ≠ some middleConfig := by
  decide

theorem parseModifiers_map_value : ∀ mods : List ModifierKey,
    parseModifiers (mods.map ModifierKey.value) = some mods
  | [] => rfl
  | m :: rest => by
    simp only [List.map_cons, parseModifiers, ModifierKey.ofValue_value m,
      parseModifiers_map_value rest]

/-- Decomposition of a successful `HotkeyConfig.parse`. -/
theorem parse_eq_some {s : PyStr} {c : HotkeyConfig}
    (hp : HotkeyConfig.parse s = some c) :
    ∃ mkey mods,
      (pySplitOn '+' (pyStrip (pyLower s))).getLast? = some mkey ∧
      parseModifiers (pySplitOn '+' (pyStrip (pyLower s))).dropLast = some mods ∧
      c = ⟨pyStrip (pyLower s), generateDisplayName mods mkey, mods, mkey,
            hotkeyTypeOf mods mkey⟩ := by
  simp only [HotkeyConfig.parse] at hp
  cases hlast : (pySplitOn '+' (pyStrip (pyLower s))).getLast? with
  | none => rw [hlast] at hp; simp at hp
  | some mkey =>
    rw [hlast] at hp
    cases hmods : parseModifiers (pySplitOn '+' (pyStrip (pyLower s))).dropLast with
    | none => rw [hmods] at hp; simp at hp
    | some mods =>
      rw [hmods] at hp
      simp only [Option.some.injEq] at hp
      exact ⟨mkey, mods, rfl, rfl, hp.symm⟩

/-- C7, amended: for every valid combo string whose main key is not a pointer
button, parsing the combo's string form (`__str__`, the display name)
reproduces the parsed `HotkeyConfig` exactly; for pointer-button combos the
display form contains a space (`"Middle Click"`, `"Mouse 4"`, `"Mouse 5"`)
and re-parsing yields a different main key, so the round trip fails there
(`c7_counterexample`). -/
theorem c7_parse_display_roundtrip (s : PyStr) (c : HotkeyConfig)
    (hv : HotkeyValidator.validate_hotkey s = true)
    (hp : HotkeyConfig.parse s = some c)
    (hm : c.main_key ∉ mouseMainKeys) :
    HotkeyConfig.parse c.str = some c := by
  obtain ⟨mkey, mods, hlast, hmods, hc⟩ := parse_eq_some hp
  subst hc
  have hm' : mkey ∉ mouseMainKeys := hm
  -- main key is a valid key, by the validator
  have hkmem : mkey ∈ HotkeyValidator.VALID_KEYS := by
    simp only [HotkeyValidator.validate_hotkey] at hv
    by_cases h0 : s = []
    · rw [if_pos h0] at hv; exact absurd hv (by simp)
    · rw [if_neg h0] at hv
      by_cases h1 : pyStrip s = []
      · rw [if_pos h1] at hv; exact absurd hv (by simp)
      · rw [if_neg h1] at hv
        rw [hlast] at hv
        simp only [Bool.and_eq_true, decide_eq_true_eq] at hv
        exact hv.1.1
  have kf := validKey_facts mkey hkmem hm'
  -- the split of the raw string is the modifier values followed by the key
  have hpartsne : pySplitOn '+' (pyStrip (pyLower s)) ≠ [] := pySplitOn_ne_nil _ _
  have hglast : (pySplitOn '+' (pyStrip (pyLower s))).getLast hpartsne = mkey := by
    have h2 := List.getLast?_eq_getLast (pySplitOn '+' (pyStrip (pyLower s))) hpartsne
    rw [hlast] at h2
    exact (Option.some.injEq _ _ ▸ h2).symm
  have hdrop : (pySplitOn '+' (pyStrip (pyLower s))).dropLast =
      mods.map ModifierKey.value := parseModifiers_eq_some hmods
  have hpartseq : pySplitOn '+' (pyStrip (pyLower s)) =
      mods.map ModifierKey.value ++ [mkey] := by
    conv_lhs => rw [← List.dropLast_append_getLast hpartsne]
    rw [hdrop, hglast]
  have hraweq : pyStrip (pyLower s) =
      pyJoin '+' (mods.map ModifierKey.value ++ [mkey]) := by
    rw [← pyJoin_pySplitOn '+' (pyStrip (pyLower s)), hpartseq]
  -- lowering the display name gives back the raw string
  have hlowparts : (mods.map ModifierKey.displayPart ++
        [displayMainKey mkey]).map (List.map Char.toLower) =
      mods.map ModifierKey.value ++ [mkey] := by
    rw [List.map_append, List.map_map]
    refine congrArg₂ (· ++ ·) ?_ ?_
    · exact List.map_congr_left fun m _ => ModifierKey.displayPart_lower m
    · simp only [List.map_cons, List.map_nil]
      exact congrArg (· :: []) kf.1
  have hlowdisp : pyLower (generateDisplayName mods mkey) =
      pyJoin '+' (mods.map ModifierKey.value ++ [mkey]) := by
    show (pyJoin '+' (mods.map ModifierKey.displayPart ++
      [displayMainKey mkey])).map Char.toLower = _
    rw [map_pyJoin, show Char.toLower '+' = '+' from by decide, hlowparts]
  -- the lowered display name has no whitespace, so strip is the identity
  have hnospace : ∀ ch ∈ pyJoin '+' (mods.map ModifierKey.value ++ [mkey]),
      pyIsSpace ch = false := by
    intro ch hch
    rcases mem_pyJoin hch with hceq | ⟨p, hp2, hcp⟩
    · subst hceq; decide
    · rcases List.mem_append.mp hp2 with hpm | hpk
      · obtain ⟨m, _, rfl⟩ := List.mem_map.mp hpm
        exact ((ModifierKey.value_chars m).2 ch hcp).1
      · have hpk2 : p = mkey := by simpa using hpk
        subst hpk2
        exact (kf.2.2 ch hcp).1
  -- the normalised form of the display name equals the normalised input
  have hkeyeq : pyStrip (pyLower (generateDisplayName mods mkey)) =
      pyStrip (pyLower s) := by
    rw [hlowdisp, pyStrip_eq_self hnospace, ← hraweq]
  show HotkeyConfig.parse (generateDisplayName mods mkey) = _
  simp only [HotkeyConfig.parse]
  rw [hkeyeq]
  simp only [hlast, hmods]

/-- Witness for `c7_parse_display_roundtrip`: the valid keyboard combo
`ctrl+f5` round-trips through its display form `Ctrl+F5`. -/
theorem c7_witness :
    HotkeyConfig.parse ctrlF5Config.str = some ctrlF5Config :=
  c7_parse_display_roundtrip "ctrl+f5".data ctrlF5Config
    (by decide) (by decide) (by decide)
